import Mathlib

/-!
Shallow embedding of `src/utils/concatenate_niftis.py`: a pipeline that
reads a manifest of NIfTI paths, loads the first volume serially to fix a
reference shape, loads the remaining volumes in parallel (validating each
shape against the reference), stacks everything along a new trailing axis
(`np.stack(..., axis=-1)`), and saves the 4D result with the first file's
affine and header.

Modelling choices:
* An ndarray is a shape (list of dimension sizes) together with its flat
  data buffer in C order.  The scalar carrier is `Int`; the pipeline never
  computes on element values, it only moves them.
* Affine and header are opaque pass-through blobs, carried as `Int`.
* The file system / codec boundary is a record of functions `FileSys`.
* `sys.exit(1)` paths are `Except.error`: an error value means the process
  exits with a nonzero code having written no output file; `Except.ok`
  carries the file that `nib.save` wrote.
* The joblib worker pool is modelled by an explicit completion schedule
  (the order in which tasks finish); joblib's ordered aggregation places
  each result at its submission index, which the model reproduces.
-/

/-- An in-memory numeric array: a shape together with the flat C-order
data buffer.  A well-formed array has `data.length = shape.prod`. -/
@[ext] structure NDArr where
  shape : List Nat
  data : List Int
  deriving Repr, DecidableEq

/-- A loaded NIfTI volume: the array from `get_fdata()` plus the affine and
header, which the core treats as opaque pass-through metadata. -/
structure Volume where
  arr : NDArr
  affine : Int
  header : Int
  deriving Repr, DecidableEq

/-- Result of `nib.load(path)` followed by `get_fdata()`: success, a
`FileNotFoundError`, or any other codec exception. -/
inductive LoadResult where
  | ok (v : Volume)
  | notFound
  | failed
  deriving Repr, DecidableEq

/-- The environment the script touches: the manifest text file
(`open(...).readlines()`, `none` meaning `FileNotFoundError`), the NIfTI
codec, `os.path.exists`, and the success of `os.makedirs` / `nib.save`. -/
structure FileSys where
  textFile : String → Option (List String)
  loadNifti : String → LoadResult
  pathExists : String → Bool
  makedirsOk : String → Bool
  saveOk : String → Bool

/-- The file written by `nib.save`: destination path, 4D data, and the
affine/header it was constructed with. -/
structure Written where
  path : String
  data : NDArr
  affine : Int
  header : Int
  deriving Repr, DecidableEq

/-- Errors raised inside `_load_nifti_worker`.  `shapeMismatch` carries the
offending path with the actual and expected shapes, exactly the fields
interpolated into the `ValueError` message; `notRun` is a modelling
artifact for schedules that never complete some task (a real pool always
completes or fails every task). -/
inductive WErr where
  | shapeMismatch (path : String) (actual expected : List Nat)
  | fileNotFound (path : String)
  | loadError (path : String)
  | notRun
  deriving Repr, DecidableEq

/-- The fatal error conditions of `concatenate_niftis`; each corresponds to
a `print(..., file=sys.stderr); sys.exit(1)` branch, so an `Except.error`
run exits nonzero without writing the output file. -/
inductive Err where
  | manifestNotFound (p : String)
  | emptyManifest (p : String)
  | refLoadError (p : String)
  | parallelLoadError (e : WErr)
  | stackError
  | saveError (p : String)
  deriving Repr, DecidableEq

/-- `line.strip()` on the character list: remove leading and trailing
whitespace. -/
def stripChars (cs : List Char) : List Char :=
  ((cs.dropWhile Char.isWhitespace).reverse.dropWhile Char.isWhitespace).reverse

/-- `line.strip()`: remove leading and trailing whitespace. -/
def strip (s : String) : String := String.mk (stripChars s.toList)

instance {ε α : Type} [DecidableEq ε] [DecidableEq α] :
    DecidableEq (Except ε α) := fun x y =>
  match x, y with
  | .error e, .error f =>
    if h : e = f then isTrue (by rw [h]) else isFalse (by simp [h])
  | .ok a, .ok b =>
    if h : a = b then isTrue (by rw [h]) else isFalse (by simp [h])
  | .error _, .ok _ => isFalse (by simp)
  | .ok _, .error _ => isFalse (by simp)

/-- `np.stack(arrs, axis=-1)`: fails on an empty list or inconsistent
shapes; otherwise the output has shape `s ++ [N]` and its C-order flat
element at index `k` is element `k / N` of input array `k % N`. -/
def npStack : List NDArr → Option NDArr
  | [] => none
  | a :: rest =>
    if rest.all (fun b => b.shape == a.shape) then
      some { shape := a.shape ++ [rest.length + 1],
             data := (List.range (a.shape.prod * (rest.length + 1))).map
               (fun k => ((a :: rest).getD (k % (rest.length + 1)) a).data.getD
                 (k / (rest.length + 1)) 0) }
    else none

/-- `x[..., i]`: drop the last axis and take the elements whose final index
is `i`. -/
def sliceLast (x : NDArr) (i : Nat) : NDArr :=
  { shape := x.shape.dropLast,
    data := (List.range x.shape.dropLast.prod).map
      (fun j => x.data.getD (j * x.shape.getLastD 1 + i) 0) }

/-- `_load_nifti_worker(path, reference_shape)`: load the volume, raise on
a missing file or codec failure, raise `ValueError` naming the path and the
two shapes when the loaded shape differs from the reference, otherwise
return the data. -/
def loadNiftiWorker (fs : FileSys) (path : String) (reference_shape : List Nat) :
    Except WErr NDArr :=
  match fs.loadNifti path with
  | .notFound => .error (.fileNotFound path)
  | .failed => .error (.loadError path)
  | .ok v =>
    if v.arr.shape ≠ reference_shape then
      .error (.shapeMismatch path v.arr.shape reference_shape)
    else
      .ok v.arr

/-- Run the pool's tasks in completion order `sched`, placing each task's
result at its submission index in the results table. -/
def fillTable (res : Nat → Except WErr NDArr) :
    List Nat → List (Option (Except WErr NDArr)) → List (Option (Except WErr NDArr))
  | [], t => t
  | i :: is, t => fillTable res is (t.set i (some (res i)))

/-- Joblib's ordered retrieval: read the results table in submission order,
propagating the first error encountered. -/
def collect : List (Option (Except WErr NDArr)) → Except WErr (List NDArr)
  | [] => .ok []
  | none :: _ => .error .notRun
  | some (.error e) :: _ => .error e
  | some (.ok a) :: rest =>
    match collect rest with
    | .error e => .error e
    | .ok as => .ok (a :: as)

/-- `Parallel(n_jobs=n_jobs)(delayed(_load_nifti_worker)(p, shape) for p in
paths)`: one independent task per path, executed in the completion order
`sched`, results aggregated back into submission order. -/
def parLoad (fs : FileSys) (sched : List Nat) (reference_shape : List Nat)
    (paths : List String) : Except WErr (List NDArr) :=
  collect (fillTable
    (fun i => loadNiftiWorker fs (paths.getD i "") reference_shape)
    sched (List.replicate paths.length none))

/-- Sequential reference semantics of the pool: map the worker over the
paths in order, stopping at the first error. -/
def seqLoad (worker : String → Except WErr NDArr) : List String → Except WErr (List NDArr)
  | [] => .ok []
  | p :: ps =>
    match worker p with
    | .error e => .error e
    | .ok a =>
      match seqLoad worker ps with
      | .error e => .error e
      | .ok as => .ok (a :: as)

/-- A valid completion schedule for `n` tasks: every task eventually
finishes (appears in the completion order). -/
def validSched (sched : List Nat) (n : Nat) : Prop :=
  ∀ i, i < n → i ∈ sched

instance (sched : List Nat) (n : Nat) : Decidable (validSched sched n) := by
  unfold validSched
  infer_instance

/-- `os.path.dirname`, POSIX flavour: everything up to the last `/`, with
trailing slashes stripped unless the result is all slashes. -/
def dirnameChars (cs : List Char) : List Char :=
  let head := cs.take (cs.length - (cs.reverse.takeWhile (fun c => c ≠ '/')).length)
  if head.isEmpty || head.all (fun c => c == '/') then head
  else (head.reverse.dropWhile (fun c => c == '/')).reverse

/-- `os.path.dirname(output_file)`. -/
def dirname (s : String) : String := String.mk (dirnameChars s.toList)

/-- Step 5 of the script: ensure the destination directory exists (creating
it when absent), then `nib.save` the image built from the stacked data and
the first file's affine and header. -/
def saveStep (fs : FileSys) (output_file : String) (concatenated : NDArr)
    (affine header : Int) : Except Err Written :=
  let output_dir := dirname output_file
  if output_dir ≠ "" ∧ ¬ fs.pathExists output_dir then
    if fs.makedirsOk output_dir then
      if fs.saveOk output_file then
        .ok ⟨output_file, concatenated, affine, header⟩
      else .error (.saveError output_file)
    else .error (.saveError output_file)
  else
    if fs.saveOk output_file then
      .ok ⟨output_file, concatenated, affine, header⟩
    else .error (.saveError output_file)

/-- `concatenate_niftis(input_paths_file, output_file, n_jobs)`.  The
`n_jobs` argument only sizes the worker pool; its observable effect is the
completion order of the parallel tasks, modelled by `sched`.  Mirrors the
source step by step: read and clean the manifest, fail on a missing or
empty manifest, load the first image serially to fix the reference shape,
load the rest in parallel, `np.stack` along the last axis, and save. -/
def concatenate_niftis (fs : FileSys) (input_paths_file output_file : String)
    (sched : List Nat) : Except Err Written :=
  match fs.textFile input_paths_file with
  | none => .error (.manifestNotFound input_paths_file)
  | some lines =>
    match (lines.filter (fun l => strip l ≠ "")).map strip with
    | [] => .error (.emptyManifest input_paths_file)
    | p0 :: remaining_paths =>
      match fs.loadNifti p0 with
      | .notFound => .error (.refLoadError p0)
      | .failed => .error (.refLoadError p0)
      | .ok first =>
        match parLoad fs sched first.arr.shape remaining_paths with
        | .error e => .error (.parallelLoadError e)
        | .ok datas =>
          match npStack (first.arr :: datas) with
          | none => .error .stackError
          | some concatenated =>
            saveStep fs output_file concatenated first.affine first.header

/-- Number of parallel load tasks a run on manifest `m` submits: the
cleaned manifest length minus the first entry, which is loaded serially. -/
def remainingCount (fs : FileSys) (m : String) : Nat :=
  match fs.textFile m with
  | none => 0
  | some lines => ((lines.filter (fun l => strip l ≠ "")).map strip).length - 1

/-! ### Concrete fixtures used by the witness theorems -/

/-- A 2x2 volume with distinct data, affine 10, header 20. -/
def volA : Volume := ⟨⟨[2, 2], [1, 2, 3, 4]⟩, 10, 20⟩

/-- A 2x2 volume with distinct data, affine 11, header 21. -/
def volB : Volume := ⟨⟨[2, 2], [5, 6, 7, 8]⟩, 11, 21⟩

/-- A 2x2 volume with distinct data, affine 12, header 22. -/
def volC : Volume := ⟨⟨[2, 2], [9, 10, 11, 12]⟩, 12, 22⟩

/-- A 2x3 volume whose shape disagrees with `volA`'s. -/
def volBad : Volume := ⟨⟨[2, 3], [0, 0, 0, 0, 0, 0]⟩, 13, 23⟩

/-- The loaded volume behind each fixture path. -/
def vol0 (p : String) : Volume :=
  if p = "a.nii" then volA else if p = "b.nii" then volB else volC

/-- A healthy environment: `m.txt` lists three same-shape volumes (with a
blank line), `m1.txt` lists one, every directory exists and every write
succeeds. -/
def fs0 : FileSys :=
  { textFile := fun p =>
      if p = "m.txt" then some ["a.nii\n", "  \n", "b.nii\n", "c.nii"]
      else if p = "m1.txt" then some ["a.nii"]
      else none
    loadNifti := fun p =>
      if p = "a.nii" ∨ p = "b.nii" ∨ p = "c.nii" then .ok (vol0 p) else .notFound
    pathExists := fun _ => true
    makedirsOk := fun _ => true
    saveOk := fun _ => true }

/-- Like `fs0` but `b.nii` loads with a mismatching shape. -/
def fs1 : FileSys :=
  { fs0 with loadNifti := fun p =>
      if p = "b.nii" then .ok volBad
      else if p = "a.nii" ∨ p = "c.nii" then .ok (vol0 p) else .notFound }

/-- Like `fs0` but no directory exists and directory creation fails. -/
def fs2 : FileSys :=
  { fs0 with pathExists := fun _ => false, makedirsOk := fun _ => false }

/-- An environment with no manifest file at all. -/
def fs3 : FileSys := { fs0 with textFile := fun _ => none }

/-- Like `fs0` but the manifest holds only blank lines. -/
def fs4 : FileSys := { fs0 with textFile := fun _ => some ["\n", "  \n"] }

/-- The 4D array the fixture run on `m.txt` writes: volumes A, B, C
stacked along a new trailing axis. -/
def W0 : NDArr := ⟨[2, 2, 3], [1, 5, 9, 2, 6, 10, 3, 7, 11, 4, 8, 12]⟩

/-- The 4D array the fixture run on the one-entry manifest `m1.txt`
writes: volume A alone, with a trailing axis of length 1. -/
def W1 : NDArr := ⟨[2, 2, 1], [1, 2, 3, 4]⟩

/-! ### Array lemmas -/

lemma getD_map_range {α : Type} (g : Nat → α) (d : α) {k M : Nat} (hk : k < M) :
    ((List.range M).map g).getD k d = g k := by
  rw [List.getD_eq_getElem?_getD, List.getElem?_map, List.getElem?_range hk]
  rfl

lemma map_range_getD {α : Type} (l : List α) (d : α) {P : Nat} (h : l.length = P) :
    (List.range P).map (fun j => l.getD j d) = l := by
  subst h
  apply List.ext_getElem
  · simp
  · intro i h1 h2
    simp [List.getD_eq_getElem?_getD, List.getElem?_eq_getElem h2]

lemma getLastD_concat {α : Type} (l : List α) (x : α) (d : α) :
    (l ++ [x]).getLastD d = x := by
  induction l with
  | nil => rfl
  | cons a as ih =>
    cases as with
    | nil => rfl
    | cons b bs => simpa using ih

/-- Stacking a nonempty list of equal-shape arrays succeeds, the result has
the input shape extended by a trailing axis of length the list length, and
slicing the result at trailing index `i` recovers the `i`-th input. -/
lemma npStack_roundtrip (a : NDArr) (rest : List NDArr)
    (hall : ∀ b ∈ rest, b.shape = a.shape) :
    ∃ out, npStack (a :: rest) = some out ∧
      out.shape = a.shape ++ [rest.length + 1] ∧
      ∀ i (hi : i < rest.length + 1),
        ((a :: rest).get ⟨i, by simpa using hi⟩).data.length = a.shape.prod →
        sliceLast out i = (a :: rest).get ⟨i, by simpa using hi⟩ := by
  have hcond : rest.all (fun b => b.shape == a.shape) = true := by
    rw [List.all_eq_true]
    intro b hb
    simpa using hall b hb
  refine ⟨_, by rw [npStack, if_pos hcond], rfl, ?_⟩
  intro i hi hlen0
  set N := rest.length + 1 with hN
  set P := a.shape.prod with hP
  have hNpos : 0 < N := Nat.succ_pos _
  have hshape : (a.shape ++ [N]).dropLast = a.shape := by
    simp
  have hlast : (a.shape ++ [N]).getLastD 1 = N := getLastD_concat _ _ _
  set arrs := a :: rest with harrs
  have hilen : i < arrs.length := by simpa [harrs] using hi
  have hgetD : arrs.getD i a = arrs.get ⟨i, hilen⟩ := by
    rw [List.getD_eq_getElem?_getD, List.getElem?_eq_getElem hilen]
    rfl
  have hmem : arrs.get ⟨i, hilen⟩ ∈ arrs := List.get_mem _ _ hilen
  have hshp : (arrs.get ⟨i, hilen⟩).shape = a.shape := by
    rcases List.mem_cons.mp (show arrs.get ⟨i, hilen⟩ ∈ a :: rest from hmem) with h | h
    · rw [h]
    · exact hall _ h
  have hdata : (List.range P).map
      (fun j => ((List.range (P * N)).map
        (fun k => (arrs.getD (k % N) a).data.getD (k / N) 0)).getD (j * N + i) 0)
      = (arrs.get ⟨i, hilen⟩).data := by
    have hlen : (arrs.get ⟨i, hilen⟩).data.length = P := hlen0
    rw [← map_range_getD ((arrs.get ⟨i, hilen⟩).data) 0 hlen]
    apply List.map_congr_left
    intro j hj
    rw [List.mem_range] at hj
    have hkey : j * N + i < P * N := by
      calc j * N + i < j * N + N := by omega
        _ = (j + 1) * N := by ring
        _ ≤ P * N := Nat.mul_le_mul_right N hj
    rw [getD_map_range _ _ hkey]
    have hmod : (j * N + i) % N = i := by
      rw [Nat.mul_comm j N, Nat.mul_add_mod]
      exact Nat.mod_eq_of_lt hi
    have hdiv : (j * N + i) / N = j := by
      rw [Nat.mul_comm j N, Nat.mul_add_div hNpos]
      simp [Nat.div_eq_of_lt hi]
    rw [hmod, hdiv, hgetD]
  refine NDArr.ext ?_ ?_
  · show (a.shape ++ [N]).dropLast = (arrs.get ⟨i, hilen⟩).shape
    rw [hshape, hshp]
  · show (List.range (a.shape ++ [N]).dropLast.prod).map
        (fun j => ((List.range (P * N)).map
          (fun k => (arrs.getD (k % N) a).data.getD (k / N) 0)).getD
            (j * (a.shape ++ [N]).getLastD 1 + i) 0)
      = (arrs.get ⟨i, hilen⟩).data
    rw [hshape, hlast]
    exact hdata

/-! ### Worker-pool lemmas -/

lemma fillTable_length (res : Nat → Except WErr NDArr) (sched : List Nat)
    (t : List (Option (Except WErr NDArr))) :
    (fillTable res sched t).length = t.length := by
  induction sched generalizing t with
  | nil => rfl
  | cons j is ih => rw [fillTable, ih, List.length_set]

lemma fillTable_getElem? (res : Nat → Except WErr NDArr) (sched : List Nat)
    (t : List (Option (Except WErr NDArr))) (i : Nat) :
    (fillTable res sched t)[i]? =
      if i ∈ sched ∧ i < t.length then some (some (res i)) else t[i]? := by
  induction sched generalizing t with
  | nil => simp [fillTable]
  | cons j is ih =>
    rw [fillTable, ih, List.length_set]
    by_cases his : i ∈ is
    · by_cases hlen : i < t.length
      · simp [his, hlen]
      · have h1 : t[i]? = none := List.getElem?_eq_none (by omega)
        have h2 : (t.set j (some (res j)))[i]? = none :=
          List.getElem?_eq_none (by rw [List.length_set]; omega)
        simp [his, hlen, h1, h2]
    · by_cases hij : i = j
      · subst hij
        by_cases hlen : i < t.length
        · simp [his, hlen, List.getElem?_set, List.getElem?_eq_getElem hlen]
        · have : t[i]? = none := List.getElem?_eq_none (by omega)
          have hset : (t.set i (some (res i)))[i]? = none :=
            List.getElem?_eq_none (by rw [List.length_set]; omega)
          simp [his, hlen, this, hset]
      · have hset : (t.set j (some (res j)))[i]? = t[i]? := by
          rw [List.getElem?_set]
          simp [Ne.symm hij]
        simp [his, hij, hset]

lemma fillTable_valid (res : Nat → Except WErr NDArr) (sched : List Nat) (n : Nat)
    (hv : validSched sched n) :
    fillTable res sched (List.replicate n none) =
      (List.range n).map (fun i => some (res i)) := by
  apply List.ext_getElem?
  intro i
  rw [fillTable_getElem?, List.length_replicate]
  by_cases hi : i < n
  · simp [hi, hv i hi, List.getElem?_range hi]
  · have h1 : (List.replicate n (none : Option (Except WErr NDArr)))[i]? = none :=
      List.getElem?_eq_none (by simpa using not_lt.mp hi)
    have h2 : ((List.range n).map (fun i => some (res i)))[i]? = none :=
      List.getElem?_eq_none (by simpa using not_lt.mp hi)
    simp [hi, h1, h2]

lemma collect_map_some (worker : String → Except WErr NDArr) (ps : List String) :
    collect (ps.map (fun p => some (worker p))) = seqLoad worker ps := by
  induction ps with
  | nil => rfl
  | cons p ps ih =>
    cases hw : worker p with
    | error e => simp [seqLoad, collect, hw]
    | ok a => simp [seqLoad, collect, hw, ih]

lemma range_map_getD {α β : Type} (f : α → β) (ps : List α) (d : α) :
    (List.range ps.length).map (fun i => f (ps.getD i d)) = ps.map f := by
  apply List.ext_getElem
  · simp
  · intro i h1 h2
    simp only [List.getElem_map, List.getElem_range]
    rw [List.getD_eq_getElem?_getD,
        List.getElem?_eq_getElem (by simpa using h2), Option.getD_some]

/-- For any schedule that completes every task, the pool agrees with the
sequential left-to-right semantics: results in submission order,
first-submitted error propagated. -/
lemma parLoad_eq_seqLoad (fs : FileSys) (sched : List Nat)
    (reference_shape : List Nat) (paths : List String)
    (hv : validSched sched paths.length) :
    parLoad fs sched reference_shape paths =
      seqLoad (fun p => loadNiftiWorker fs p reference_shape) paths := by
  rw [parLoad, fillTable_valid _ _ _ hv, range_map_getD
    (fun p => some (loadNiftiWorker fs p reference_shape)) paths ""]
  exact collect_map_some _ _

lemma loadNiftiWorker_ok_vol (fs : FileSys) (p : String) (r : List Nat) (v : Volume)
    (hload : fs.loadNifti p = .ok v) (hshape : v.arr.shape = r) :
    loadNiftiWorker fs p r = .ok v.arr := by
  rw [loadNiftiWorker, hload]
  simp [hshape]

lemma loadNiftiWorker_ok_shape (fs : FileSys) (p : String) (r : List Nat) (arr : NDArr)
    (h : loadNiftiWorker fs p r = .ok arr) : arr.shape = r := by
  rw [loadNiftiWorker] at h
  cases hl : fs.loadNifti p with
  | ok v =>
    rw [hl] at h
    by_cases hs : v.arr.shape ≠ r
    · simp [hs] at h
    · simp [hs] at h
      rw [← h]
      exact not_ne_iff.mp hs
  | notFound => rw [hl] at h; exact absurd h (by simp)
  | failed => rw [hl] at h; exact absurd h (by simp)

lemma seqLoad_all_ok (worker : String → Except WErr NDArr) (f : String → NDArr)
    (ps : List String) (h : ∀ p ∈ ps, worker p = .ok (f p)) :
    seqLoad worker ps = .ok (ps.map f) := by
  induction ps with
  | nil => rfl
  | cons p ps ih =>
    rw [seqLoad, h p (List.mem_cons_self p ps),
        ih (fun q hq => h q (List.mem_cons_of_mem p hq))]
    simp

lemma seqLoad_first_error (worker : String → Except WErr NDArr)
    (pre : List String) (p : String) (post : List String) (e : WErr)
    (hpre : ∀ q ∈ pre, ∃ arr, worker q = .ok arr)
    (hp : worker p = .error e) :
    seqLoad worker (pre ++ p :: post) = .error e := by
  induction pre with
  | nil => rw [List.nil_append, seqLoad, hp]
  | cons q qs ih =>
    obtain ⟨arr, harr⟩ := hpre q (List.mem_cons_self q qs)
    rw [List.cons_append, seqLoad, harr,
        ih (fun q' hq' => hpre q' (List.mem_cons_of_mem q hq'))]

lemma collect_ok_mem (t : List (Option (Except WErr NDArr))) (as : List NDArr)
    (h : collect t = .ok as) : ∀ a ∈ as, some (Except.ok a) ∈ t := by
  induction t generalizing as with
  | nil =>
    rw [collect] at h
    cases h
    intro a ha
    exact absurd ha (List.not_mem_nil a)
  | cons x xs ih =>
    match x with
    | none => rw [collect] at h; exact absurd h (by simp)
    | some (.error e) => rw [collect] at h; exact absurd h (by simp)
    | some (.ok b) =>
      rw [collect] at h
      cases hc : collect xs with
      | error e => rw [hc] at h; exact absurd h (by simp)
      | ok bs =>
        rw [hc] at h
        cases h
        intro a ha
        rcases List.mem_cons.mp ha with h1 | h1
        · subst h1; exact List.mem_cons_self _ _
        · exact List.mem_cons_of_mem _ (ih bs hc a h1)

lemma fillTable_mem (res : Nat → Except WErr NDArr) (sched : List Nat)
    (t : List (Option (Except WErr NDArr))) (x : Option (Except WErr NDArr))
    (hx : x ∈ fillTable res sched t) : x ∈ t ∨ ∃ i, x = some (res i) := by
  induction sched generalizing t with
  | nil => exact Or.inl hx
  | cons j is ih =>
    rw [fillTable] at hx
    rcases ih _ hx with h | h
    · rcases List.mem_or_eq_of_mem_set h with h1 | h1
      · exact Or.inl h1
      · exact Or.inr ⟨j, h1⟩
    · exact Or.inr h

/-- Every array that the pool hands back to the aggregator passed the
worker's shape check against the reference shape. -/
lemma parLoad_ok_shapes (fs : FileSys) (sched : List Nat) (r : List Nat)
    (paths : List String) (datas : List NDArr)
    (h : parLoad fs sched r paths = .ok datas) :
    ∀ d ∈ datas, d.shape = r := by
  intro d hd
  have hmem := collect_ok_mem _ _ h d hd
  rcases fillTable_mem _ _ _ _ hmem with h1 | h1
  · exact absurd (List.eq_of_mem_replicate h1) (by simp)
  · obtain ⟨i, hi⟩ := h1
    exact loadNiftiWorker_ok_shape fs _ r d (Option.some.inj hi).symm

lemma saveStep_ok (fs : FileSys) (o : String) (c : NDArr) (af hd : Int)
    (hdir : dirname o = "" ∨ fs.pathExists (dirname o) = true ∨
      fs.makedirsOk (dirname o) = true)
    (hs : fs.saveOk o = true) :
    saveStep fs o c af hd = .ok ⟨o, c, af, hd⟩ := by
  simp only [saveStep]
  by_cases h1 : dirname o ≠ "" ∧ ¬ fs.pathExists (dirname o)
  · have hmk : fs.makedirsOk (dirname o) = true := by
      rcases hdir with h | h | h
      · exact absurd h h1.1
      · exact absurd h (by simpa using h1.2)
      · exact h
    rw [if_pos h1, if_pos hmk, if_pos hs]
  · rw [if_neg h1, if_pos hs]

/-- Success characterization of the pipeline: when the manifest is present
and nonempty, every listed volume loads with the first volume's shape, the
schedule completes every task, the destination directory is available (or
creatable) and the save succeeds, then the run writes a 4D file whose
trailing axis enumerates the manifest entries in order and whose affine and
header are the first volume's. -/
lemma concatenate_niftis_ok (fs : FileSys) (m o : String) (sched : List Nat)
    (lines : List String) (p0 : String) (remaining : List String)
    (vol : String → Volume)
    (hm : fs.textFile m = some lines)
    (hpaths : (lines.filter (fun l => strip l ≠ "")).map strip = p0 :: remaining)
    (hload : ∀ p ∈ p0 :: remaining, fs.loadNifti p = .ok (vol p))
    (hshapes : ∀ p ∈ p0 :: remaining, (vol p).arr.shape = (vol p0).arr.shape)
    (hwf : ∀ p ∈ p0 :: remaining, (vol p).arr.data.length = (vol p0).arr.shape.prod)
    (hsched : validSched sched remaining.length)
    (hdir : dirname o = "" ∨ fs.pathExists (dirname o) = true ∨
      fs.makedirsOk (dirname o) = true)
    (hsave : fs.saveOk o = true) :
    ∃ out, concatenate_niftis fs m o sched =
        .ok ⟨o, out, (vol p0).affine, (vol p0).header⟩ ∧
      out.shape = (vol p0).arr.shape ++ [remaining.length + 1] ∧
      ∀ i (hi : i < remaining.length + 1),
        sliceLast out i = (vol ((p0 :: remaining).get ⟨i, by simpa using hi⟩)).arr := by
  have hall : ∀ b ∈ remaining.map (fun p => (vol p).arr),
      b.shape = (vol p0).arr.shape := by
    intro b hb
    obtain ⟨p, hp, rfl⟩ := List.mem_map.mp hb
    exact hshapes p (List.mem_cons_of_mem p0 hp)
  have hwf' : ∀ b ∈ ((vol p0).arr :: remaining.map (fun p => (vol p).arr)),
      b.data.length = (vol p0).arr.shape.prod := by
    intro b hb
    rcases List.mem_cons.mp hb with h | h
    · subst h; exact hwf p0 (List.mem_cons_self p0 remaining)
    · obtain ⟨p, hp, rfl⟩ := List.mem_map.mp h
      exact hwf p (List.mem_cons_of_mem p0 hp)
  obtain ⟨out, hstack, hshp, hslice⟩ :=
    npStack_roundtrip (vol p0).arr (remaining.map (fun p => (vol p).arr)) hall
  have hpar : parLoad fs sched (vol p0).arr.shape remaining =
      .ok (remaining.map (fun p => (vol p).arr)) := by
    rw [parLoad_eq_seqLoad fs sched _ remaining hsched]
    exact seqLoad_all_ok _ (fun p => (vol p).arr) remaining
      (fun p hp => loadNiftiWorker_ok_vol fs p _ (vol p)
        (hload p (List.mem_cons_of_mem p0 hp))
        (hshapes p (List.mem_cons_of_mem p0 hp)))
  have hslice' : ∀ i (hi : i < remaining.length + 1),
      sliceLast out i = (vol ((p0 :: remaining).get ⟨i, by simpa using hi⟩)).arr := by
    intro i hi
    have hi2 : i < (remaining.map (fun p => (vol p).arr)).length + 1 := by
      simpa using hi
    rw [hslice i hi2 (hwf' _ (List.get_mem _ _ _))]
    show ((p0 :: remaining).map (fun p => (vol p).arr)).get ⟨i, by simpa using hi⟩
      = (vol ((p0 :: remaining).get ⟨i, by simpa using hi⟩)).arr
    simp only [List.get_eq_getElem]
    exact List.getElem_map _
  refine ⟨out, ?_, by simpa using hshp, hslice'⟩
  unfold concatenate_niftis
  simp only [hm, hpaths, hload p0 (List.mem_cons_self p0 remaining), hpar, hstack]
  exact saveStep_ok fs o out (vol p0).affine (vol p0).header hdir hsave

lemma saveStep_ok_inv (fs : FileSys) (o : String) (c : NDArr) (af hd : Int)
    (w : Written) (h : saveStep fs o c af hd = .ok w) : w = ⟨o, c, af, hd⟩ := by
  simp only [saveStep] at h
  split_ifs at h <;>
    first
      | exact (Except.ok.inj h).symm
      | exact absurd h (by simp)

lemma saveStep_not_stackError (fs : FileSys) (o : String) (c : NDArr)
    (af hd : Int) : saveStep fs o c af hd ≠ .error .stackError := by
  simp only [saveStep]
  split_ifs <;> simp

lemma saveStep_mkdir_fail (fs : FileSys) (o : String) (c : NDArr) (af hd : Int)
    (h1 : dirname o ≠ "") (h2 : fs.pathExists (dirname o) = false)
    (h3 : fs.makedirsOk (dirname o) = false) :
    saveStep fs o c af hd = .error (.saveError o) := by
  simp only [saveStep]
  rw [if_pos ⟨h1, by simp [h2]⟩, if_neg (by simp [h3])]

lemma loadNiftiWorker_mismatch (fs : FileSys) (p : String) (r : List Nat)
    (v : Volume) (hload : fs.loadNifti p = .ok v) (hne : v.arr.shape ≠ r) :
    loadNiftiWorker fs p r = .error (.shapeMismatch p v.arr.shape r) := by
  rw [loadNiftiWorker, hload]
  simp [hne]

/-- If every task before index `j` loads a volume of the reference shape
and task `j` loads one of a different shape, the pool propagates exactly
task `j`'s `ShapeMismatch` error, for any complete schedule. -/
lemma parLoad_first_mismatch (fs : FileSys) (sched : List Nat) (r : List Nat)
    (paths : List String) (j : Nat) (hj : j < paths.length) (bad : Volume)
    (hsched : validSched sched paths.length)
    (hpre : ∀ q ∈ paths.take j, ∃ v, fs.loadNifti q = .ok v ∧ v.arr.shape = r)
    (hbad : fs.loadNifti (paths.get ⟨j, hj⟩) = .ok bad)
    (hne : bad.arr.shape ≠ r) :
    parLoad fs sched r paths =
      .error (.shapeMismatch (paths.get ⟨j, hj⟩) bad.arr.shape r) := by
  rw [parLoad_eq_seqLoad fs sched r paths hsched]
  have hsplit : paths = paths.take j ++ paths.get ⟨j, hj⟩ :: paths.drop (j + 1) := by
    rw [List.get_eq_getElem, ← List.drop_eq_getElem_cons hj, List.take_append_drop]
  conv_lhs => rw [hsplit]
  exact seqLoad_first_error _ _ _ _ _
    (fun q hq => (hpre q hq).elim
      (fun v hv => ⟨v.arr, loadNiftiWorker_ok_vol fs q r v hv.1 hv.2⟩))
    (loadNiftiWorker_mismatch fs _ r bad hbad hne)

/-! ### Claim theorems -/

/-- C1: for every manifest of N ≥ 1 paths whose volumes all load with the
first volume's shape, and every completion schedule of the worker pool,
the run writes an output whose trailing axis has length N and whose
trailing-axis slice `i` equals the data loaded from the i-th manifest
path — the ordering follows the manifest order, not the completion order
of the parallel load tasks. -/
theorem C1_output_follows_manifest_order
    (fs : FileSys) (m o : String) (sched : List Nat) (lines : List String)
    (p0 : String) (remaining : List String) (vol : String → Volume)
    (hm : fs.textFile m = some lines)
    (hpaths : (lines.filter (fun l => strip l ≠ "")).map strip = p0 :: remaining)
    (hload : ∀ p ∈ p0 :: remaining, fs.loadNifti p = .ok (vol p))
    (hshapes : ∀ p ∈ p0 :: remaining, (vol p).arr.shape = (vol p0).arr.shape)
    (hwf : ∀ p ∈ p0 :: remaining, (vol p).arr.data.length = (vol p0).arr.shape.prod)
    (hsched : validSched sched remaining.length)
    (hdir : dirname o = "" ∨ fs.pathExists (dirname o) = true ∨
      fs.makedirsOk (dirname o) = true)
    (hsave : fs.saveOk o = true) :
    ∃ out, concatenate_niftis fs m o sched =
        .ok ⟨o, out, (vol p0).affine, (vol p0).header⟩ ∧
      out.shape.getLastD 0 = (p0 :: remaining).length ∧
      ∀ i (hi : i < (p0 :: remaining).length),
        sliceLast out i = (vol ((p0 :: remaining).get ⟨i, hi⟩)).arr := by
  obtain ⟨out, hrun, hshp, hslice⟩ :=
    concatenate_niftis_ok fs m o sched lines p0 remaining vol hm hpaths hload
      hshapes hwf hsched hdir hsave
  refine ⟨out, hrun, ?_, ?_⟩
  · rw [hshp, getLastD_concat]
    simp
  · intro i hi
    exact hslice i (by simpa using hi)

/-- C1 witness: the three-volume fixture manifest run with a reversed
completion schedule still yields the manifest-ordered stack. -/
theorem C1_witness :
    concatenate_niftis fs0 "m.txt" "out/x.nii" [1, 0] =
      .ok ⟨"out/x.nii", W0, volA.affine, volA.header⟩ ∧
    W0.shape.getLastD 0 = 3 ∧ sliceLast W0 1 = volB.arr := by
  obtain ⟨out, hrun, hlen, hslice⟩ :=
    C1_output_follows_manifest_order fs0 "m.txt" "out/x.nii" [1, 0]
      ["a.nii\n", "  \n", "b.nii\n", "c.nii"] "a.nii" ["b.nii", "c.nii"] vol0
      rfl (by decide) (by decide) (by decide) (by decide) (by decide)
      (by decide) rfl
  have hW : concatenate_niftis fs0 "m.txt" "out/x.nii" [1, 0] =
      .ok ⟨"out/x.nii", W0, volA.affine, volA.header⟩ := by decide
  rw [hrun] at hW
  have hout : out = W0 := congrArg Written.data (Except.ok.inj hW)
  subst hout
  exact ⟨hrun, hlen, hslice 1 (by decide)⟩

/-- C2: if a non-first manifest entry loads with a shape different from
the first volume's (and the entries before it load cleanly), the run
terminates with the worker's shape-mismatch error naming the offending
path and the actual and expected shapes; the `Except.error` result is the
`sys.exit(1)` path, on which no output file is written. -/
theorem C2_shape_mismatch_aborts
    (fs : FileSys) (m o : String) (sched : List Nat) (lines : List String)
    (p0 : String) (remaining : List String) (first : Volume)
    (j : Nat) (hj : j < remaining.length) (bad : Volume)
    (hm : fs.textFile m = some lines)
    (hpaths : (lines.filter (fun l => strip l ≠ "")).map strip = p0 :: remaining)
    (h0 : fs.loadNifti p0 = .ok first)
    (hpre : ∀ q ∈ remaining.take j, ∃ v, fs.loadNifti q = .ok v ∧
      v.arr.shape = first.arr.shape)
    (hbad : fs.loadNifti (remaining.get ⟨j, hj⟩) = .ok bad)
    (hne : bad.arr.shape ≠ first.arr.shape)
    (hsched : validSched sched remaining.length) :
    concatenate_niftis fs m o sched = .error (.parallelLoadError
      (.shapeMismatch (remaining.get ⟨j, hj⟩) bad.arr.shape first.arr.shape)) := by
  have hpar := parLoad_first_mismatch fs sched first.arr.shape remaining j hj bad
    hsched hpre hbad hne
  unfold concatenate_niftis
  simp only [hm, hpaths, h0, hpar]

/-- C2 witness: in the fixture where `b.nii` is 2x3 instead of 2x2, the
run aborts with the mismatch error naming `b.nii` and both shapes. -/
theorem C2_witness :
    concatenate_niftis fs1 "m.txt" "o.nii" [1, 0] =
      .error (.parallelLoadError (.shapeMismatch "b.nii" [2, 3] [2, 2])) :=
  C2_shape_mismatch_aborts fs1 "m.txt" "o.nii" [1, 0]
    ["a.nii\n", "  \n", "b.nii\n", "c.nii"] "a.nii" ["b.nii", "c.nii"] volA
    0 (by decide) volBad rfl (by decide) rfl
    (fun q hq => absurd hq (by simp)) rfl (by decide) (by decide)

/-- C3: for a fixed environment and manifest, any two complete completion
schedules of the worker pool — the only observable effect of different
`n_jobs` values — produce the same run result, so the output is a
deterministic function of the inputs. -/
theorem C3_schedule_independent (fs : FileSys) (m o : String)
    (sched1 sched2 : List Nat)
    (h1 : validSched sched1 (remainingCount fs m))
    (h2 : validSched sched2 (remainingCount fs m)) :
    concatenate_niftis fs m o sched1 = concatenate_niftis fs m o sched2 := by
  unfold concatenate_niftis
  unfold remainingCount at h1 h2
  cases hm : fs.textFile m with
  | none => simp only [hm]
  | some lines =>
    simp only [hm] at h1 h2
    simp only [hm]
    cases hp : (lines.filter (fun l => strip l ≠ "")).map strip with
    | nil => simp only [hp]
    | cons p0 remaining =>
      simp only [hp] at h1 h2
      simp only [hp]
      cases hl : fs.loadNifti p0 with
      | notFound => simp only [hl]
      | failed => simp only [hl]
      | ok first =>
        simp only [hl]
        rw [parLoad_eq_seqLoad fs sched1 _ remaining (by simpa using h1),
            parLoad_eq_seqLoad fs sched2 _ remaining (by simpa using h2)]

/-- C3 witness: two different completion schedules over the fixture give
identical results. -/
theorem C3_witness :
    concatenate_niftis fs0 "m.txt" "out/x.nii" [1, 0] =
      concatenate_niftis fs0 "m.txt" "out/x.nii" [0, 1, 0] :=
  C3_schedule_independent fs0 "m.txt" "out/x.nii" [1, 0] [0, 1, 0]
    (by decide) (by decide)

/-- C4: manifest reading maps the file's lines to the path sequence by
stripping whitespace from each line and discarding lines that become
empty, preserving relative order (left conjunct: the filter-then-map the
code performs equals map-strip-then-drop-empties); and when the resulting
sequence is empty the run fails with the empty-manifest error no matter
what the volume loader would return, i.e. before any volume is loaded
(right conjunct, with the loader universally quantified via `load`). -/
theorem C4_manifest_cleaning (fs : FileSys) (m o : String) (sched : List Nat)
    (lines : List String) (load : String → LoadResult)
    (hm : fs.textFile m = some lines) :
    (lines.filter (fun l => strip l ≠ "")).map strip =
      (lines.map strip).filter (fun s => s ≠ "") ∧
    ((lines.filter (fun l => strip l ≠ "")).map strip = [] →
      concatenate_niftis { fs with loadNifti := load } m o sched =
        .error (.emptyManifest m)) := by
  constructor
  · rw [List.filter_map]
    rfl
  · intro hempty
    unfold concatenate_niftis
    simp only [hm, hempty]

/-- C4 witness: a manifest of only blank lines cleans to the empty
sequence and the run on it fails with the empty-manifest error, with the
loader replaced by an unrelated one. -/
theorem C4_witness :
    ((["\n", "  \n"] : List String).filter (fun l => strip l ≠ "")).map strip =
      ((["\n", "  \n"] : List String).map strip).filter (fun s => s ≠ "") ∧
    concatenate_niftis { fs4 with loadNifti := fs0.loadNifti } "m.txt" "o.nii" []
      = .error (.emptyManifest "m.txt") :=
  ⟨(C4_manifest_cleaning fs4 "m.txt" "o.nii" [] ["\n", "  \n"]
      fs0.loadNifti rfl).1,
   (C4_manifest_cleaning fs4 "m.txt" "o.nii" [] ["\n", "  \n"]
      fs0.loadNifti rfl).2 (by decide)⟩

/-- C5: on a manifest cleaning to a single path, the run writes an output
of shape `referenceShape ++ [1]`, and slice 0 along the trailing axis
reproduces exactly the data loaded from that volume. -/
theorem C5_single_volume_roundtrip (fs : FileSys) (m o : String)
    (sched : List Nat) (lines : List String) (p0 : String) (v : Volume)
    (hm : fs.textFile m = some lines)
    (hpaths : (lines.filter (fun l => strip l ≠ "")).map strip = [p0])
    (hv : fs.loadNifti p0 = .ok v)
    (hwf : v.arr.data.length = v.arr.shape.prod)
    (hdir : dirname o = "" ∨ fs.pathExists (dirname o) = true ∨
      fs.makedirsOk (dirname o) = true)
    (hsave : fs.saveOk o = true) :
    ∃ out, concatenate_niftis fs m o sched = .ok ⟨o, out, v.affine, v.header⟩ ∧
      out.shape = v.arr.shape ++ [1] ∧ sliceLast out 0 = v.arr := by
  obtain ⟨out, hrun, hshp, hslice⟩ :=
    concatenate_niftis_ok fs m o sched lines p0 [] (fun _ => v) hm hpaths
      (by intro p hp; rw [List.mem_singleton.mp hp]; exact hv)
      (by intro p hp; rfl)
      (by intro p hp; exact hwf)
      (fun i hi => absurd hi (Nat.not_lt_zero i))
      hdir hsave
  exact ⟨out, hrun, hshp, hslice 0 (by omega)⟩

/-- C5 witness: the one-entry fixture manifest reproduces volume A's data
in slice 0 of a `[2, 2, 1]` output. -/
theorem C5_witness :
    concatenate_niftis fs0 "m1.txt" "out/y.nii" [] =
      .ok ⟨"out/y.nii", W1, volA.affine, volA.header⟩ ∧
    W1.shape = volA.arr.shape ++ [1] ∧ sliceLast W1 0 = volA.arr := by
  obtain ⟨out, hrun, hshp, hslice⟩ :=
    C5_single_volume_roundtrip fs0 "m1.txt" "out/y.nii" [] ["a.nii"] "a.nii"
      volA rfl (by decide) rfl (by decide) (by decide) rfl
  have hW : concatenate_niftis fs0 "m1.txt" "out/y.nii" [] =
      .ok ⟨"out/y.nii", W1, volA.affine, volA.header⟩ := by decide
  rw [hrun] at hW
  have hout : out = W1 := congrArg Written.data (Except.ok.inj hW)
  subst hout
  exact ⟨hrun, hshp, hslice⟩

/-- C6: when the manifest file does not exist the run fails with the
manifest-not-found error — an exit-1 path on which no output is written —
and does so for every possible volume loader, i.e. before any volume load
is attempted. -/
theorem C6_missing_manifest (fs : FileSys) (m o : String) (sched : List Nat)
    (load : String → LoadResult) (hm : fs.textFile m = none) :
    concatenate_niftis { fs with loadNifti := load } m o sched =
      .error (.manifestNotFound m) := by
  unfold concatenate_niftis
  simp only [hm]

/-- C6 witness: the fixture without a manifest file fails with the
manifest-not-found error. -/
theorem C6_witness :
    concatenate_niftis { fs3 with loadNifti := fs0.loadNifti } "m.txt" "o.nii"
      [] = .error (.manifestNotFound "m.txt") :=
  C6_missing_manifest fs3 "m.txt" "o.nii" [] fs0.loadNifti rfl

/-- C7: on any successful run, the affine and header of the written file
are exactly those loaded from the first manifest path, passed through
unmodified, and slice 0 of the output is exactly the array obtained while
establishing the reference geometry — the retained first load, which the
code places directly at position 0 of the stack instead of reloading. -/
theorem C7_first_volume_retained
    (fs : FileSys) (m o : String) (sched : List Nat) (lines : List String)
    (p0 : String) (remaining : List String) (first : Volume) (w : Written)
    (hm : fs.textFile m = some lines)
    (hpaths : (lines.filter (fun l => strip l ≠ "")).map strip = p0 :: remaining)
    (h0 : fs.loadNifti p0 = .ok first)
    (hwf : first.arr.data.length = first.arr.shape.prod)
    (hok : concatenate_niftis fs m o sched = .ok w) :
    w.affine = first.affine ∧ w.header = first.header ∧
      sliceLast w.data 0 = first.arr := by
  unfold concatenate_niftis at hok
  simp only [hm, hpaths, h0] at hok
  cases hp : parLoad fs sched first.arr.shape remaining with
  | error e =>
    simp only [hp] at hok
    exact absurd hok (by simp)
  | ok datas =>
    simp only [hp] at hok
    have hall : ∀ b ∈ datas, b.shape = first.arr.shape :=
      parLoad_ok_shapes fs sched first.arr.shape remaining datas hp
    obtain ⟨out, hstack, hshp, hslice⟩ := npStack_roundtrip first.arr datas hall
    simp only [hstack] at hok
    have hw := saveStep_ok_inv fs o out first.affine first.header w hok
    subst hw
    exact ⟨rfl, rfl, hslice 0 (Nat.succ_pos _) hwf⟩

/-- C7 witness: the fixture run's output carries volume A's affine (10)
and header (20) verbatim, and its slice 0 is volume A's array. -/
theorem C7_witness :
    (10 : Int) = volA.affine ∧ (20 : Int) = volA.header ∧
      sliceLast W0 0 = volA.arr :=
  C7_first_volume_retained fs0 "m.txt" "out/x.nii" [1, 0]
    ["a.nii\n", "  \n", "b.nii\n", "c.nii"] "a.nii" ["b.nii", "c.nii"] volA
    ⟨"out/x.nii", W0, 10, 20⟩ rfl (by decide) rfl rfl (by decide)

/-- C8: `np.stack` on a nonempty list of equal-shape arrays always
succeeds (left conjunct), and — since upstream validation guarantees every
array reaching the stacking step has the reference shape — no run of the
pipeline, under any environment or schedule, ever takes the StackError
branch (right conjunct). -/
theorem C8_stack_branch_unreachable :
    (∀ (a : NDArr) (rest : List NDArr), (∀ b ∈ rest, b.shape = a.shape) →
      ∃ out, npStack (a :: rest) = some out) ∧
    ∀ (fs : FileSys) (m o : String) (sched : List Nat),
      concatenate_niftis fs m o sched ≠ .error .stackError := by
  constructor
  · intro a rest hall
    obtain ⟨out, hstack, -, -⟩ := npStack_roundtrip a rest hall
    exact ⟨out, hstack⟩
  · intro fs m o sched h
    unfold concatenate_niftis at h
    cases hm : fs.textFile m with
    | none => simp [hm] at h
    | some lines =>
      simp only [hm] at h
      cases hp : (lines.filter (fun l => strip l ≠ "")).map strip with
      | nil =>
        simp only [hp] at h
        exact absurd h (by simp)
      | cons p0 remaining =>
        simp only [hp] at h
        cases hl : fs.loadNifti p0 with
        | notFound => simp [hl] at h
        | failed => simp [hl] at h
        | ok first =>
          simp only [hl] at h
          cases hpar : parLoad fs sched first.arr.shape remaining with
          | error e => simp [hpar] at h
          | ok datas =>
            simp only [hpar] at h
            obtain ⟨out, hstack, -, -⟩ := npStack_roundtrip first.arr datas
              (parLoad_ok_shapes fs sched first.arr.shape remaining datas hpar)
            simp only [hstack] at h
            exact saveStep_not_stackError fs o out first.affine first.header h

/-- C8 witness: stacking two equal-shape fixture arrays succeeds with the
interleaved 4D result, and the fixture run never hits StackError. -/
theorem C8_witness :
    npStack [volA.arr, volB.arr] =
      some ⟨[2, 2, 2], [1, 5, 2, 6, 3, 7, 4, 8]⟩ ∧
    concatenate_niftis fs0 "m.txt" "out/x.nii" [0, 1] ≠
      .error .stackError := by
  obtain ⟨out, -⟩ := C8_stack_branch_unreachable.1 volA.arr [volB.arr] (by decide)
  exact ⟨by decide, C8_stack_branch_unreachable.2 fs0 "m.txt" "out/x.nii" [0, 1]⟩

/-- C9: when the destination directory is named by the output path, does
not exist, and cannot be created, the run aborts on the `sys.exit(1)` path
with a save error and the output file is not written, for any manifest
whose volumes load cleanly. -/
theorem C9_mkdir_failure_aborts
    (fs : FileSys) (m o : String) (sched : List Nat) (lines : List String)
    (p0 : String) (remaining : List String) (vol : String → Volume)
    (hm : fs.textFile m = some lines)
    (hpaths : (lines.filter (fun l => strip l ≠ "")).map strip = p0 :: remaining)
    (hload : ∀ p ∈ p0 :: remaining, fs.loadNifti p = .ok (vol p))
    (hshapes : ∀ p ∈ p0 :: remaining, (vol p).arr.shape = (vol p0).arr.shape)
    (hsched : validSched sched remaining.length)
    (hd1 : dirname o ≠ "") (hd2 : fs.pathExists (dirname o) = false)
    (hd3 : fs.makedirsOk (dirname o) = false) :
    concatenate_niftis fs m o sched = .error (.saveError o) := by
  have hall : ∀ b ∈ remaining.map (fun p => (vol p).arr),
      b.shape = (vol p0).arr.shape := by
    intro b hb
    obtain ⟨p, hp, rfl⟩ := List.mem_map.mp hb
    exact hshapes p (List.mem_cons_of_mem p0 hp)
  have hpar : parLoad fs sched (vol p0).arr.shape remaining =
      .ok (remaining.map (fun p => (vol p).arr)) := by
    rw [parLoad_eq_seqLoad fs sched _ remaining hsched]
    exact seqLoad_all_ok _ (fun p => (vol p).arr) remaining
      (fun p hp => loadNiftiWorker_ok_vol fs p _ (vol p)
        (hload p (List.mem_cons_of_mem p0 hp))
        (hshapes p (List.mem_cons_of_mem p0 hp)))
  obtain ⟨out, hstack, -, -⟩ :=
    npStack_roundtrip (vol p0).arr (remaining.map (fun p => (vol p).arr)) hall
  unfold concatenate_niftis
  simp only [hm, hpaths, hload p0 (List.mem_cons_self p0 remaining), hpar, hstack]
  exact saveStep_mkdir_fail fs o out (vol p0).affine (vol p0).header hd1 hd2 hd3

/-- C9 witness: with `out/` absent and directory creation failing, the
fixture run aborts with the save error and writes nothing. -/
theorem C9_witness :
    concatenate_niftis fs2 "m.txt" "out/x.nii" [0, 1] =
      .error (.saveError "out/x.nii") :=
  C9_mkdir_failure_aborts fs2 "m.txt" "out/x.nii" [0, 1]
    ["a.nii\n", "  \n", "b.nii\n", "c.nii"] "a.nii" ["b.nii", "c.nii"] vol0
    rfl (by decide) (by decide) (by decide) (by decide) (by decide) rfl rfl

/-- C10 (implicit): no step checks that the first volume is 3-dimensional;
the reference shape is whatever shape the first file loads with, so for a
first input of any dimensionality d (all other inputs matching its shape)
the run succeeds and the output has dimensionality d + 1. -/
theorem C10_no_dimensionality_check
    (fs : FileSys) (m o : String) (sched : List Nat) (lines : List String)
    (p0 : String) (remaining : List String) (vol : String → Volume)
    (hm : fs.textFile m = some lines)
    (hpaths : (lines.filter (fun l => strip l ≠ "")).map strip = p0 :: remaining)
    (hload : ∀ p ∈ p0 :: remaining, fs.loadNifti p = .ok (vol p))
    (hshapes : ∀ p ∈ p0 :: remaining, (vol p).arr.shape = (vol p0).arr.shape)
    (hwf : ∀ p ∈ p0 :: remaining, (vol p).arr.data.length = (vol p0).arr.shape.prod)
    (hsched : validSched sched remaining.length)
    (hdir : dirname o = "" ∨ fs.pathExists (dirname o) = true ∨
      fs.makedirsOk (dirname o) = true)
    (hsave : fs.saveOk o = true) :
    ∃ out, concatenate_niftis fs m o sched =
        .ok ⟨o, out, (vol p0).affine, (vol p0).header⟩ ∧
      out.shape.length = (vol p0).arr.shape.length + 1 := by
  obtain ⟨out, hrun, hshp, -⟩ :=
    concatenate_niftis_ok fs m o sched lines p0 remaining vol hm hpaths hload
      hshapes hwf hsched hdir hsave
  refine ⟨out, hrun, ?_⟩
  rw [hshp]
  simp

/-- C10 witness: the fixture volumes are 2-dimensional, not 3-dimensional,
yet the run succeeds and writes a 3-dimensional output. -/
theorem C10_witness :
    concatenate_niftis fs0 "m.txt" "out/x.nii" [0, 1] =
      .ok ⟨"out/x.nii", W0, volA.affine, volA.header⟩ ∧
    volA.arr.shape.length = 2 ∧ W0.shape.length = 3 := by
  obtain ⟨out, hrun, hlen⟩ :=
    C10_no_dimensionality_check fs0 "m.txt" "out/x.nii" [0, 1]
      ["a.nii\n", "  \n", "b.nii\n", "c.nii"] "a.nii" ["b.nii", "c.nii"] vol0
      rfl (by decide) (by decide) (by decide) (by decide) (by decide)
      (by decide) rfl
  have hW : concatenate_niftis fs0 "m.txt" "out/x.nii" [0, 1] =
      .ok ⟨"out/x.nii", W0, volA.affine, volA.header⟩ := by decide
  rw [hrun] at hW
  have hout : out = W0 := congrArg Written.data (Except.ok.inj hW)
  subst hout
  exact ⟨hrun, rfl, hlen⟩
